import Mathlib

/-!
Verification development for the SpeakMCPMobile repository.

The development shallowly embeds the parts of the source relevant to the
frozen claims:

* `src/src/lib/openaiClient.ts` — the `OpenAIClient.chat` response handling:
  the non-stream JSON branch, the buffered SSE fallback branch
  (content-type is an event stream but no incremental byte reader is
  available), and the true incremental streaming branch.
* `src/src/screens/ChatScreen.tsx` — the transcript update performed by
  `send` around the `client.chat` call, the speech-recognition event
  handlers (`result`, `error`, `end` for the native path, `onresult`,
  `onerror`, `onend` for the web path), the `willCancel` cancel-intent
  flag, and the `startRecording` re-entrancy guard.

JavaScript's `JSON.parse` is modelled by an explicit parameter
`jp : String → Option Json` ranging over arbitrary parse functions: all
positive theorems hold for every such function, and concrete
counterexamples instantiate it with a finite table whose entries agree
with what `JSON.parse` returns on the finitely many strings involved.
JavaScript strings are Lean `String`s (with the split/trim/prefix
operations re-implemented below to match the exact JS semantics used by
the source, including the `/\r?\n\r?\n/` and `/\r?\n/` regex splits).
-/

/-- A JavaScript JSON value, as produced by `JSON.parse`. -/
inductive Json where
  | null
  | bool (b : Bool)
  | num (n : Int)
  | str (s : String)
  | arr (elems : List Json)
  | obj (fields : List (String × Json))

/-- JavaScript truthiness of a JSON value (`if (v)`): `null`, `false`, `0`
and the empty string are falsy; arrays and objects are always truthy. -/
def Json.truthy : Json → Bool
  | .null => false
  | .bool b => b
  | .num n => n != 0
  | .str s => s ≠ ""
  | .arr _ => true
  | .obj _ => true

/-- Property access `v?.k` on a JSON value: defined only on objects
(first binding wins, as after `JSON.parse` keys are unique). -/
def Json.getField : Json → String → Option Json
  | .obj fs, k => fs.lookup k
  | _, _ => none

/-- Index access `v?.[n]`: array element, or the numeric-string property
of an object (JS property access `obj[0]` reads key `"0"`). -/
def Json.getIdx : Json → Nat → Option Json
  | .arr xs, n => xs.get? n
  | .obj fs, n => fs.lookup (toString n)
  | _, _ => none

/-- Truthiness of an optional-chaining result (`undefined` is falsy). -/
def jsTruthy : Option Json → Bool
  | none => false
  | some v => v.truthy

/-- JS whitespace as used by `String.prototype.trim` and `\s` (the
characters that actually occur in event-stream traffic). -/
def isWS (c : Char) : Bool :=
  c = ' ' || c = '\t' || c = '\n' || c = '\r' || c = '\x0b' || c = '\x0c'

/-- `String.prototype.trim` on a character list. -/
def jsTrim (l : List Char) : List Char :=
  ((l.dropWhile isWS).reverse.dropWhile isWS).reverse

/-- `String.prototype.trim` on a string. -/
def jsTrimS (s : String) : String :=
  String.mk (jsTrim s.data)

/-- `l.replace(/^data:\s?/, '')`: strip a leading `data:` and at most one
following whitespace character; any other string is left unchanged. -/
def stripData (l : List Char) : List Char :=
  match l with
  | 'd' :: 'a' :: 't' :: 'a' :: ':' :: rest =>
    match rest with
    | c :: rest2 => if isWS c then rest2 else c :: rest2
    | [] => []
  | _ => l

/-- `text.split(/\r?\n\r?\n/)` (the buffered-fallback event delimiter):
structural scan, matching the regex greedily at each position exactly as
the JS engine does. `cur` is the reversed accumulator of the current
segment. -/
def splitBlankGo : List Char → List Char → List (List Char)
  | '\n' :: '\n' :: rest, cur => cur.reverse :: splitBlankGo rest []
  | '\n' :: '\r' :: '\n' :: rest, cur => cur.reverse :: splitBlankGo rest []
  | '\r' :: '\n' :: '\n' :: rest, cur => cur.reverse :: splitBlankGo rest []
  | '\r' :: '\n' :: '\r' :: '\n' :: rest, cur => cur.reverse :: splitBlankGo rest []
  | c :: rest, cur => splitBlankGo rest (c :: cur)
  | [], cur => [cur.reverse]

/-- `chunk.split(/\r?\n/)` (the buffered-fallback line delimiter). -/
def splitNLGo : List Char → List Char → List (List Char)
  | '\r' :: '\n' :: rest, cur => cur.reverse :: splitNLGo rest []
  | '\n' :: rest, cur => cur.reverse :: splitNLGo rest []
  | c :: rest, cur => splitNLGo rest (c :: cur)
  | [], cur => [cur.reverse]

/-- Splitting on the literal `'\n\n'`: the streaming loop repeatedly finds
`buffer.indexOf('\n\n')`, processes the prefix and continues on the
remainder, which is exactly a leftmost non-overlapping split; the final
element is the leftover buffer. -/
def splitNNGo : List Char → List Char → List (List Char)
  | '\n' :: '\n' :: rest, cur => cur.reverse :: splitNNGo rest []
  | c :: rest, cur => splitNNGo rest (c :: cur)
  | [], cur => [cur.reverse]

/-- `chunk.split('\n')` (the streaming-path line delimiter). -/
def splitLFGo : List Char → List Char → List (List Char)
  | '\n' :: rest, cur => cur.reverse :: splitLFGo rest []
  | c :: rest, cur => splitLFGo rest (c :: cur)
  | [], cur => [cur.reverse]

/-- Accumulator threaded through the event-stream processing of
`OpenAIClient.chat`: `finalText` is the accumulated assistant content,
`conv` models the `responseConversationId` variable (a raw JS value,
since the source assigns whatever `obj.conversation_id` holds), and
`tokens` records, in order, the arguments of every `onToken` call. -/
structure SSEAcc where
  finalText : String
  conv : Option Json
  tokens : List String

/-- `if (obj?.conversation_id) { responseConversationId = obj.conversation_id; }` -/
def convUpdate (obj : Json) (conv : Option Json) : Option Json :=
  match obj.getField ("conversation_id") with
  | some v => if v.truthy then some v else conv
  | none => conv

/-- `obj?.choices?.[0]?.delta?.content` -/
def deltaContent (obj : Json) : Option Json :=
  (((obj.getField ("choices")).bind (fun c => c.getIdx 0)).bind
    (fun c => c.getField ("delta"))).bind (fun d => d.getField ("content"))

/-- `obj?.choices?.[0]?.message?.content` -/
def msgContent (obj : Json) : Option Json :=
  (((obj.getField ("choices")).bind (fun c => c.getIdx 0)).bind
    (fun c => c.getField ("message"))).bind (fun m => m.getField ("content"))

/-- Token extraction of the buffered fallback path:
`let token = delta?.content; if (!token && obj?.choices?.[0]?.message?.content)
token = obj.choices[0].message.content;` — the `message.content` fallback
fires whenever `delta?.content` is falsy and `message.content` is truthy. -/
def fallbackToken (obj : Json) : Option Json :=
  if !(jsTruthy (deltaContent obj)) && jsTruthy (msgContent obj) then msgContent obj
  else deltaContent obj

/-- Token extraction of the incremental streaming path:
`const token = delta?.content;` with no fallback. -/
def streamToken (obj : Json) : Option Json :=
  deltaContent obj

/-- `typeof token === 'string' && token.length > 0` -/
def tokenString : Option Json → Option String
  | some (.str s) => if s.length > 0 then some s else none
  | _ => none

/-- `s.startsWith('\x7b')`: the first character is an opening brace
(stated structurally so that it evaluates by `rfl`). -/
def startsBrace (s : String) : Bool :=
  match s.data with
  | c :: _ => c = '\x7b'
  | [] => false

/-- The control-event filter applied to an extracted token:
`if (token.trim().startsWith('\x7b')) \x7b try \x7b const inner = JSON.parse(token);
if (inner?.type === 'data-operation') continue; \x7d catch \x7b\x7d \x7d` -/
def isDataOp (jp : String → Option Json) (tok : String) : Bool :=
  if startsBrace (jsTrimS tok) then
    match jp tok with
    | some inner =>
      match inner.getField ("type") with
      | some (.str s) => s = "data-operation"
      | _ => false
    | none => false
  else false

/-- Processing of one payload line in the buffered fallback path
(`openaiClient.ts` lines 151-181). `Sum.inr` is the early `return` taken
on a `[DONE]` marker; `Sum.inl` continues the loop. Lines reaching this
point are already prefix-stripped, trimmed and non-empty. -/
def procLineF (jp : String → Option Json) (acc : SSEAcc) (l : String) :
    SSEAcc ⊕ SSEAcc :=
  if l = ("[DONE]") || l = ("\"[DONE]\"") then Sum.inr acc
  else
    match jp l with
    | none => Sum.inl acc
    | some obj =>
      let acc1 : SSEAcc := { acc with conv := convUpdate obj acc.conv }
      match tokenString (fallbackToken obj) with
      | none => Sum.inl acc1
      | some tok =>
        if isDataOp jp tok then Sum.inl acc1
        else Sum.inl { acc1 with
          finalText := acc1.finalText ++ tok,
          tokens := acc1.tokens ++ [tok] }

/-- Processing of one payload line in the incremental streaming path
(`openaiClient.ts` lines 202-227): same shape, but empty lines are
skipped (`if (!l) continue`), the line is not trimmed, and the token
comes only from `delta.content`. -/
def procLineS (jp : String → Option Json) (acc : SSEAcc) (l : String) :
    SSEAcc ⊕ SSEAcc :=
  if l = ("") then Sum.inl acc
  else if l = ("[DONE]") || l = ("\"[DONE]\"") then Sum.inr acc
  else
    match jp l with
    | none => Sum.inl acc
    | some obj =>
      let acc1 : SSEAcc := { acc with conv := convUpdate obj acc.conv }
      match tokenString (streamToken obj) with
      | none => Sum.inl acc1
      | some tok =>
        if isDataOp jp tok then Sum.inl acc1
        else Sum.inl { acc1 with
          finalText := acc1.finalText ++ tok,
          tokens := acc1.tokens ++ [tok] }

/-- A `for`-loop over items with an early `return`: `Sum.inr` from the
step aborts the whole (possibly nested) loop. -/
def procLines {α : Type} (step : SSEAcc → α → SSEAcc ⊕ SSEAcc) :
    List α → SSEAcc → SSEAcc ⊕ SSEAcc
  | [], acc => Sum.inl acc
  | x :: xs, acc =>
    match step acc x with
    | Sum.inl a => procLines step xs a
    | Sum.inr a => Sum.inr a

/-- Collapse the loop result: the early `[DONE]` return and the
fall-through return build the same `{ content, conversationId }` value. -/
def outAcc : SSEAcc ⊕ SSEAcc → SSEAcc
  | Sum.inl a => a
  | Sum.inr a => a

/-- The per-event work of the buffered fallback path: split the event
into lines, strip the `data:` prefix, trim, drop empties, process each
line (`openaiClient.ts` line 150). -/
def fallbackChunkLines (chunk : List Char) : List String :=
  ((splitNLGo chunk []).map (fun l => String.mk (jsTrim (stripData l)))).filter
    (fun l => l ≠ (""))

def procChunkF (jp : String → Option Json) (acc : SSEAcc) (chunk : List Char) :
    SSEAcc ⊕ SSEAcc :=
  procLines (procLineF jp) (fallbackChunkLines chunk) acc

/-- The buffered SSE fallback path of `chat` (`openaiClient.ts` lines
143-184): split the whole body on `/\r?\n\r?\n/` and run the nested
chunk/line loops. -/
def sseFallback (jp : String → Option Json) (conv0 : Option Json)
    (body : String) : SSEAcc :=
  outAcc (procLines (procChunkF jp) (splitBlankGo body.data [])
    ⟨"", conv0, []⟩)

/-- The per-event work of the incremental streaming path
(`openaiClient.ts` lines 198-228): trim the chunk, skip it when empty,
split on `'\n'`, strip the `data:` prefix, process each line. -/
def procChunkS (jp : String → Option Json) (acc : SSEAcc) (chunk : List Char) :
    SSEAcc ⊕ SSEAcc :=
  let t := jsTrim chunk
  if t = [] then Sum.inl acc
  else procLines (procLineS jp) ((splitLFGo t []).map (fun l => String.mk (stripData l))) acc

/-- One iteration of the streaming read loop: append the decoded `value`
to the buffer, then the inner `while ((idx = buffer.indexOf('\n\n')) !== -1)`
loop processes every complete event and leaves the remainder in the
buffer (`openaiClient.ts` lines 192-229). -/
def streamStep (jp : String → Option Json) (acc : SSEAcc)
    (buffer value : List Char) : (SSEAcc × List Char) ⊕ SSEAcc :=
  let pieces := splitNNGo (buffer ++ value) []
  match procLines (procChunkS jp) pieces.dropLast acc with
  | Sum.inl a => Sum.inl (a, pieces.getLast?.getD [])
  | Sum.inr a => Sum.inr a

/-- The outer read loop: `reads` is the list of decoded chunks the byte
reader yields before `done`; at `done` the leftover buffer is discarded
and the accumulated text is returned. -/
def sseStreamGo (jp : String → Option Json) :
    List String → SSEAcc → List Char → SSEAcc
  | [], acc, _ => acc
  | v :: vs, acc, buf =>
    match streamStep jp acc buf v.data with
    | Sum.inl (a, b) => sseStreamGo jp vs a b
    | Sum.inr a => a

/-- The incremental streaming path of `chat` (`openaiClient.ts` lines
186-232). -/
def sseStream (jp : String → Option Json) (conv0 : Option Json)
    (reads : List String) : SSEAcc :=
  sseStreamGo jp reads ⟨"", conv0, []⟩ []

/-- The non-stream branch of `chat` (`openaiClient.ts` lines 121-140):
parse the body as JSON; on failure return the raw text; on success the
content is `j?.choices?.[0]?.message?.content ?? ''` if that is a string
(`null`/`undefined` collapse to `''` via `??`), otherwise the raw text;
`conversation_id` is captured when truthy. `onToken` is never invoked. -/
def chatNonSSE (jp : String → Option Json) (conv0 : Option Json)
    (body : String) : SSEAcc :=
  match jp body with
  | none => ⟨body, conv0, []⟩
  | some j =>
    let content :=
      match msgContent j with
      | none => ""
      | some .null => ""
      | some (.str s) => s
      | some _ => body
    ⟨content, convUpdate j conv0, []⟩

/-- `{ content, conversationId }`, the value resolved by `chat`. -/
structure ChatResponse where
  content : String
  conversationId : Option Json

def SSEAcc.toResponse (a : SSEAcc) : ChatResponse :=
  ⟨a.finalText, a.conv⟩

/-- The content slot of a transcript message at runtime. The TypeScript
declaration is `content?: string`, but `ChatScreen.send` stores
`reply || full` into it, where `reply` is the `ChatResponse` object
returned by `chat`, so the runtime value can also be that object. -/
inductive MsgContent where
  | str (s : String)
  | respObj (r : ChatResponse)

structure Msg where
  role : String
  content : MsgContent

/-- `(copy[i].content || '') + tok` — string concatenation; when the slot
already holds an object, JS coerces it to the string `[object Object]`. -/
def jsPlusTok : MsgContent → String → MsgContent
  | .str s, tok => .str (s ++ tok)
  | .respObj _, tok => .str (("[object Object]") ++ tok)

/-- The backwards scan of `ChatScreen.send`'s `setMessages` updater:
`for (let i = copy.length - 1; i >= 0; i--) if (copy[i].role === 'assistant')
{ copy[i] = ...; break; }` — update the last assistant entry. Stated on
the reversed list so the scan is structural. -/
def updateLastAssistantRev : List Msg → (MsgContent → MsgContent) → List Msg
  | [], _ => []
  | m :: rest, f =>
    if m.role = ("assistant") then { m with content := f m.content } :: rest
    else m :: updateLastAssistantRev rest f

def updateLastAssistant (ms : List Msg) (f : MsgContent → MsgContent) : List Msg :=
  (updateLastAssistantRev ms.reverse f).reverse

/-- The `ChatScreen.send` happy path (`ChatScreen.tsx` lines 195-250),
with the chat call abstracted by its observable behaviour: `tokens` is
the sequence of `onToken` callbacks and `reply` the resolved
`ChatResponse`. Appends the user message and an empty in-flight
assistant message, applies each incremental token append, then runs the
stream-end replacement `const finalText = reply || full;
if (finalText) { ...copy[i] = { ...copy[i], content: finalText }... }`.
Since `reply` is an object it is always truthy, so `finalText` is the
`ChatResponse` object itself and the assistant slot receives it. -/
def sendModel (prior : List Msg) (text : String) (tokens : List String)
    (reply : ChatResponse) : List Msg :=
  if jsTrimS text = ("") then prior
  else
    let ms := prior ++ [⟨"user", .str text⟩, ⟨"assistant", .str ""⟩]
    let ms := tokens.foldl (fun acc tok => updateLastAssistant acc (fun c => jsPlusTok c tok)) ms
    updateLastAssistant ms (fun _ => .respObj reply)

/-- Content of the last assistant entry of a transcript. -/
def lastAssistantContent (ms : List Msg) : Option MsgContent :=
  (ms.reverse.find? (fun m => m.role = ("assistant"))).map (fun m => m.content)

/-- State shared by the speech-recognition event handlers in
`ChatScreen`: the live transcript, the committed final buffer
(`nativeFinalRef` / `webFinalRef`), the editable input draft, the
`listening` flag and the list of texts dispatched through `send`. -/
structure VoiceState where
  liveTranscript : String
  finalBuf : String
  inputDraft : String
  listening : Bool
  sends : List String

/-- The native `result` listener (`ChatScreen.tsx` lines 344-357):
`t` is the extracted transcript. A non-empty `t` updates the live
transcript; a final result in hands-free mode clears the buffers and
dispatches `send(t.trim())` when the trimmed text is non-empty, while in
manual mode it only commits `t` into `nativeFinalRef`. -/
def onResultNative (handsFree : Bool) (st : VoiceState) (t : String)
    (isFinal : Bool) : VoiceState :=
  let st := if t ≠ ("") then { st with liveTranscript := t } else st
  if isFinal && t ≠ ("") then
    if handsFree then
      let fin := jsTrimS t
      let st := { st with finalBuf := "", liveTranscript := "" }
      if fin ≠ ("") then { st with sends := st.sends ++ [fin] } else st
    else { st with finalBuf := t }
  else st

/-- The native `error` listener (`ChatScreen.tsx` lines 358-360): its
body is only `console.warn('[Voice] recognition error', event)` — the
state is untouched and nothing is resolved or dispatched. -/
def onErrorNative (st : VoiceState) : VoiceState :=
  st

/-- The native `end` listener (`ChatScreen.tsx` lines 361-371):
resolve `(nativeFinalRef.current || liveTranscriptRef.current || '').trim()`,
clear listening state, and in manual mode dispatch the non-empty result
as a send, or append it to the input draft when the cancel-intent flag
was set. -/
def onEndNative (handsFree willCancel : Bool) (st : VoiceState) : VoiceState :=
  let fin := jsTrimS (if st.finalBuf ≠ ("") then st.finalBuf else st.liveTranscript)
  let st := { st with listening := false, liveTranscript := "" }
  let st :=
    if !handsFree && fin ≠ ("") then
      if willCancel then
        { st with inputDraft := if st.inputDraft ≠ ("") then st.inputDraft ++ (" ") ++ fin else fin }
      else { st with sends := st.sends ++ [fin] }
    else st
  { st with finalBuf := "" }

/-- The loop of the web `onresult` handler (`ChatScreen.tsx` lines
286-293): each recognition result contributes its transcript to the
final or the interim accumulator. -/
def webCollect (rs : List (Bool × String)) : String × String :=
  rs.foldl (fun acc r => if r.1 then (acc.1, acc.2 ++ r.2) else (acc.1 ++ r.2, acc.2)) ("", "")

/-- The web `onresult` handler (`ChatScreen.tsx` lines 285-305). -/
def onResultWeb (handsFree : Bool) (st : VoiceState) (rs : List (Bool × String)) :
    VoiceState :=
  let interim := (webCollect rs).1
  let finalText := (webCollect rs).2
  let st := if interim ≠ ("") then { st with liveTranscript := interim } else st
  if finalText ≠ ("") then
    if handsFree then
      let st := { st with liveTranscript := "", finalBuf := "" }
      let toSend := jsTrimS finalText
      if toSend ≠ ("") then { st with sends := st.sends ++ [toSend] } else st
    else { st with finalBuf := st.finalBuf ++ finalText }
  else st

/-- The web `onerror` handler (`ChatScreen.tsx` line 284): only
`console.warn` — no state change, no dispatch. -/
def onErrorWeb (st : VoiceState) : VoiceState :=
  st

/-- The web `onend` handler (`ChatScreen.tsx` lines 306-316): resolve
`(webFinalRef.current || '').trim() || (liveTranscriptRef.current || '').trim()`
and dispatch as send or draft-append in manual mode. -/
def onEndWeb (handsFree willCancel : Bool) (st : VoiceState) : VoiceState :=
  let fin := if jsTrimS st.finalBuf ≠ ("") then jsTrimS st.finalBuf else jsTrimS st.liveTranscript
  let st := { st with listening := false, liveTranscript := "" }
  let st :=
    if !handsFree && fin ≠ ("") then
      if willCancel then
        { st with inputDraft := if st.inputDraft ≠ ("") then st.inputDraft ++ (" ") ++ fin else fin }
      else { st with sends := st.sends ++ [fin] }
    else st
  { st with finalBuf := "" }

/-- Full capture-session state of `ChatScreen`: the voice state plus the
cancel-intent flag `willCancel`, the gesture start coordinate
`startYRef`, and the `startingRef` re-entrancy flag. -/
structure CaptureState where
  voice : VoiceState
  willCancel : Bool
  startY : Option Int
  starting : Bool

/-- The complete event vocabulary of the capture session, i.e. every
handler `ChatScreen` registers that can touch `willCancel`, `startYRef`
or the voice state: the mic button's `onPressIn`/`onPressOut` (the only
gesture handlers — no move/drag handler is registered anywhere) and the
recognizer's `result`/`error`/`end` events. -/
inductive CaptureEvent where
  | pressIn (y : Int)
  | result (t : String) (isFinal : Bool)
  | recError
  | recEnd
  | pressOut

/-- One handler dispatch. `pressIn` runs `startRecording` (guard at line
325, then `setWillCancel(false); setLiveTranscript(''); setListening(true);
nativeFinalRef.current = ''; startYRef.current = e.nativeEvent.pageY`,
with `startingRef` reset once the underlying start has been issued);
`pressOut` runs the `finally` block of `stopRecordingAndHandle`
(`startYRef.current = null; setWillCancel(false)`), with the recognizer
firing `end` later. Nothing in the source ever sets `willCancel` to
`true`. -/
def captureStep (handsFree : Bool) (st : CaptureState) (e : CaptureEvent) :
    CaptureState :=
  match e with
  | .pressIn y =>
    if st.starting || st.voice.listening then st
    else
      { st with
        willCancel := false,
        startY := some y,
        starting := false,
        voice := { st.voice with liveTranscript := "", listening := true, finalBuf := "" } }
  | .result t isFinal => { st with voice := onResultNative handsFree st.voice t isFinal }
  | .recError => { st with voice := onErrorNative st.voice }
  | .recEnd => { st with voice := onEndNative handsFree st.willCancel st.voice }
  | .pressOut => { st with startY := none, willCancel := false }

def captureRun (handsFree : Bool) (evs : List CaptureEvent) (st : CaptureState) :
    CaptureState :=
  evs.foldl (captureStep handsFree) st

/-- The initial capture state: empty transcript, not listening, cancel
flag down. -/
def initCapture : CaptureState :=
  ⟨⟨"", "", "", false, []⟩, false, none, false⟩

/-- Minimal state for the `startRecording` re-entrancy guard:
`startingRef.current`, the `listening` flag, and a count of underlying
recognizer starts issued. -/
structure RecGuard where
  starting : Bool
  listening : Bool
  startsIssued : Nat

/-- The synchronous entry of `startRecording` (`ChatScreen.tsx` lines
325-330): `if (startingRef.current || listening) return;` then
`startingRef.current = true; ...; setListening(true)`. The returned flag
says whether the body proceeds. -/
def startEntry (st : RecGuard) : RecGuard × Bool :=
  if st.starting || st.listening then (st, false)
  else ({ st with starting := true, listening := true }, true)

/-- The asynchronous remainder of `startRecording`: issue at most one
underlying recognizer start (`issue = false` models permission denial or
an unavailable capability, which also resets `listening`), then clear
`startingRef`. The second component counts recognizer starts issued. -/
def startBody (issue : Bool) (st : RecGuard) : RecGuard × Nat :=
  if issue then ({ st with starting := false }, 1)
  else ({ st with starting := false, listening := false }, 0)

/-- A complete `startRecording` call running without interleaving. -/
def startCall (issue : Bool) (st : RecGuard) : RecGuard × Nat :=
  match startEntry st with
  | (st1, false) => (st1, 0)
  | (st1, true) => startBody issue st1

/-- Two `startRecording` calls in quick succession: the second call runs
in full while the first is suspended between its synchronous entry and
its asynchronous body (the only interleaving the single-threaded runtime
allows). Returns the final state and the total number of underlying
recognizer starts issued. -/
def startQuickPair (i1 i2 : Bool) (st : RecGuard) : RecGuard × Nat :=
  match startEntry st with
  | (st1, false) => startCall i2 st1
  | (st1, true) =>
    let r2 := startCall i2 st1
    let r1 := startBody i1 r2.1
    (r1.1, r2.2 + r1.2)

/-- Lift a predicate on accumulators over the loop result. -/
def sumP (P : SSEAcc → Prop) : SSEAcc ⊕ SSEAcc → Prop
  | Sum.inl a => P a
  | Sum.inr a => P a

/-- A `data` chunk carrying the token only in `choices[0].message.content`
(no `delta`), as emitted by servers that send full-message chunks. -/
def chunkMsgHi : Json :=
  Json.obj [("choices", Json.arr [Json.obj [("message", Json.obj [("content", Json.str "hi")])]])]

/-- The JSON text of `chunkMsgHi`. -/
def lineMsgHi : String :=
  "\x7b\"choices\":[\x7b\"message\":\x7b\"content\":\"hi\"\x7d\x7d]\x7d"

/-- `JSON.parse` restricted to the strings occurring in the
message-content counterexample: `lineMsgHi` parses to `chunkMsgHi`
(exactly what `JSON.parse` returns on it); nothing else is parseable. -/
def jpMsgHi : String → Option Json :=
  fun s => if s = lineMsgHi then some chunkMsgHi else none

/-- An event-stream body holding the single event `lineMsgHi`. -/
def bodyMsgHi : String :=
  "data: \x7b\"choices\":[\x7b\"message\":\x7b\"content\":\"hi\"\x7d\x7d]\x7d\n\n"

/-- `JSON.parse` restricted to the two conversation-id chunks of the
last-write counterexample: a truthy id `"abc"` and a falsy (empty) id. -/
def jpConv : String → Option Json :=
  fun s =>
    if s = ("\x7b\"conversation_id\":\"abc\"\x7d") then
      some (Json.obj [("conversation_id", Json.str "abc")])
    else if s = ("\x7b\"conversation_id\":\"\"\x7d") then
      some (Json.obj [("conversation_id", Json.str "")])
    else none

/-- A body whose first event carries `conversation_id: "abc"` and whose
second, later event carries `conversation_id: ""`. -/
def bodyConv : String :=
  "data: \x7b\"conversation_id\":\"abc\"\x7d\n\ndata: \x7b\"conversation_id\":\"\"\x7d\n\n"

/-- The control-event token `{"type":"data-operation"}` (as a raw JS
string, after JSON unescaping of the chunk that carried it). -/
def tokDataOp : String :=
  "\x7b\"type\":\"data-operation\"\x7d"

/-- A streamed chunk whose `delta.content` is the control-event token. -/
def lineDataOp : String :=
  "\x7b\"choices\":[\x7b\"delta\":\x7b\"content\":\"\x7b\\\"type\\\":\\\"data-operation\\\"\x7d\"\x7d\x7d]\x7d"

/-- The parsed value of `lineDataOp`. -/
def chunkDataOp : Json :=
  Json.obj [("choices", Json.arr [Json.obj [("delta", Json.obj [("content", Json.str tokDataOp)])]])]

/-- `JSON.parse` restricted to the strings of the data-operation
witness. -/
def jpOp : String → Option Json :=
  fun s =>
    if s = lineDataOp then some chunkDataOp
    else if s = tokDataOp then some (Json.obj [("type", Json.str "data-operation")])
    else none

/-- A voice state with empty buffers, used as a concrete input. -/
def vs0 : VoiceState :=
  ⟨"", "", "", false, []⟩

/-- A manual-mode voice state holding a committed final segment `hi`
that has not yet been dispatched. -/
def vsPending : VoiceState :=
  ⟨"", "hi", "", true, []⟩

/-- `data: c` — the single event line of a canonically framed chunk. -/
def dataLine (c : String) : List Char :=
  'd' :: 'a' :: 't' :: 'a' :: ':' :: ' ' :: c.data

/-- Chunk payloads on which the two SSE paths can be aligned: non-empty,
free of newline and carriage-return characters, and neither starting nor
ending with whitespace (so JS `trim` leaves the payload and the framing
intact). -/
def cleanChunk (c : String) : Bool :=
  !c.data.isEmpty &&
  c.data.all (fun ch => ch ≠ '\n' && ch ≠ '\r') &&
  !(isWS (c.data.headD 'x')) &&
  !(isWS (c.data.reverse.headD 'x'))

/-- The parsed chunk extracts the same token in both paths: the
`delta.content` extraction and the `message.content`-fallback extraction
agree (e.g. every token-bearing chunk carries `delta.content`). -/
def tokenAgree (jp : String → Option Json) (c : String) : Bool :=
  match jp c with
  | some j => tokenString (fallbackToken j) == tokenString (streamToken j)
  | none => true

/-- The canonical LF-framed event-stream body
`data: c1\n\n ... data: cn\n\n`. -/
def canonicalBody (chunks : List String) : String :=
  String.mk ((chunks.map (fun c => dataLine c ++ ['\n', '\n'])).flatten)

theorem join_snoc (ts : List String) (t : String) :
    String.join (ts ++ [t]) = String.join ts ++ t := by
  simp [String.join, List.foldl_append]

theorem outAcc_P (P : SSEAcc → Prop) (r : SSEAcc ⊕ SSEAcc) (h : sumP P r) :
    P (outAcc r) := by
  cases r <;> simpa [sumP, outAcc] using h

theorem procLines_inv {α : Type} (P : SSEAcc → Prop)
    (step : SSEAcc → α → SSEAcc ⊕ SSEAcc)
    (hstep : ∀ acc x, P acc → sumP P (step acc x)) :
    ∀ (xs : List α) (acc : SSEAcc), P acc → sumP P (procLines step xs acc) := by
  intro xs
  induction xs with
  | nil => intro acc h; simpa [procLines, sumP] using h
  | cons x xs ih =>
    intro acc h
    have hs := hstep acc x h
    simp only [procLines]
    cases hx : step acc x with
    | inl a =>
      rw [hx] at hs
      exact ih a hs
    | inr a =>
      rw [hx] at hs
      simpa [sumP] using hs

theorem procLineF_tok (jp : String → Option Json) (acc : SSEAcc) (l : String)
    (h : acc.finalText = String.join acc.tokens) :
    sumP (fun a => a.finalText = String.join a.tokens) (procLineF jp acc l) := by
  simp only [procLineF]
  split
  · simpa [sumP] using h
  · split
    · simpa [sumP] using h
    · split
      · simpa [sumP] using h
      · split
        · simpa [sumP] using h
        · simp [sumP, join_snoc, h]

theorem procLineS_tok (jp : String → Option Json) (acc : SSEAcc) (l : String)
    (h : acc.finalText = String.join acc.tokens) :
    sumP (fun a => a.finalText = String.join a.tokens) (procLineS jp acc l) := by
  simp only [procLineS]
  split
  · simpa [sumP] using h
  · split
    · simpa [sumP] using h
    · split
      · simpa [sumP] using h
      · split
        · simpa [sumP] using h
        · split
          · simpa [sumP] using h
          · simp [sumP, join_snoc, h]

theorem procChunkF_tok (jp : String → Option Json) (acc : SSEAcc) (chunk : List Char)
    (h : acc.finalText = String.join acc.tokens) :
    sumP (fun a => a.finalText = String.join a.tokens) (procChunkF jp acc chunk) := by
  exact procLines_inv _ _ (fun a l ha => procLineF_tok jp a l ha) _ acc h

theorem procChunkS_tok (jp : String → Option Json) (acc : SSEAcc) (chunk : List Char)
    (h : acc.finalText = String.join acc.tokens) :
    sumP (fun a => a.finalText = String.join a.tokens) (procChunkS jp acc chunk) := by
  simp only [procChunkS]
  split
  · simpa [sumP] using h
  · exact procLines_inv _ _ (fun a l ha => procLineS_tok jp a l ha) _ acc h

theorem sseStreamGo_tok (jp : String → Option Json) :
    ∀ (reads : List String) (acc : SSEAcc) (buf : List Char),
    acc.finalText = String.join acc.tokens →
    (sseStreamGo jp reads acc buf).finalText =
      String.join (sseStreamGo jp reads acc buf).tokens := by
  intro reads
  induction reads with
  | nil => intro acc buf h; simpa [sseStreamGo] using h
  | cons v vs ih =>
    intro acc buf h
    simp only [sseStreamGo, streamStep]
    have hp := procLines_inv (fun a => a.finalText = String.join a.tokens) _
      (fun a c ha => procChunkS_tok jp a c ha)
      ((splitNNGo (buf ++ v.data) []).dropLast) acc h
    cases hx : procLines (procChunkS jp) ((splitNNGo (buf ++ v.data) []).dropLast) acc with
    | inl a =>
      rw [hx] at hp
      exact ih a _ hp
    | inr a =>
      rw [hx] at hp
      simpa [sumP] using hp

/-- Claim C1: for every event-stream response body (and any behaviour of
`JSON.parse`), the content returned by `chat` equals the concatenation,
in arrival order, of exactly the token fragments passed to `onToken` —
control events are neither forwarded nor counted — in both the buffered
fallback path and the incremental streaming path. -/
theorem c1_content_is_token_concat (jp : String → Option Json)
    (conv0 : Option Json) (body : String) (reads : List String) :
    (sseFallback jp conv0 body).finalText =
      String.join (sseFallback jp conv0 body).tokens ∧
    (sseStream jp conv0 reads).finalText =
      String.join (sseStream jp conv0 reads).tokens := by
  constructor
  · exact outAcc_P _ _ (procLines_inv _ _
      (fun a c ha => procChunkF_tok jp a c ha) _ _ (by simp [String.join]))
  · exact sseStreamGo_tok jp reads _ [] (by simp [String.join])

theorem procLineF_conv (jp : String → Option Json) (c0 : Option Json)
    (hjp : ∀ s j, jp s = some j → j.getField ("conversation_id") = none)
    (acc : SSEAcc) (l : String) (h : acc.conv = c0) :
    sumP (fun a => a.conv = c0) (procLineF jp acc l) := by
  simp only [procLineF]
  split
  · simpa [sumP] using h
  · split
    · simpa [sumP] using h
    · next obj heq =>
      have hc : convUpdate obj acc.conv = c0 := by
        simp [convUpdate, hjp _ _ heq, h]
      split
      · simpa [sumP] using hc
      · split
        · simpa [sumP] using hc
        · simpa [sumP] using hc

theorem procLineS_conv (jp : String → Option Json) (c0 : Option Json)
    (hjp : ∀ s j, jp s = some j → j.getField ("conversation_id") = none)
    (acc : SSEAcc) (l : String) (h : acc.conv = c0) :
    sumP (fun a => a.conv = c0) (procLineS jp acc l) := by
  simp only [procLineS]
  split
  · simpa [sumP] using h
  · split
    · simpa [sumP] using h
    · split
      · simpa [sumP] using h
      · next obj heq =>
        have hc : convUpdate obj acc.conv = c0 := by
          simp [convUpdate, hjp _ _ heq, h]
        split
        · simpa [sumP] using hc
        · split
          · simpa [sumP] using hc
          · simpa [sumP] using hc

theorem procChunkF_conv (jp : String → Option Json) (c0 : Option Json)
    (hjp : ∀ s j, jp s = some j → j.getField ("conversation_id") = none)
    (acc : SSEAcc) (chunk : List Char) (h : acc.conv = c0) :
    sumP (fun a => a.conv = c0) (procChunkF jp acc chunk) := by
  exact procLines_inv _ _ (fun a l ha => procLineF_conv jp c0 hjp a l ha) _ acc h

theorem procChunkS_conv (jp : String → Option Json) (c0 : Option Json)
    (hjp : ∀ s j, jp s = some j → j.getField ("conversation_id") = none)
    (acc : SSEAcc) (chunk : List Char) (h : acc.conv = c0) :
    sumP (fun a => a.conv = c0) (procChunkS jp acc chunk) := by
  simp only [procChunkS]
  split
  · simpa [sumP] using h
  · exact procLines_inv _ _ (fun a l ha => procLineS_conv jp c0 hjp a l ha) _ acc h

theorem sseStreamGo_conv (jp : String → Option Json) (c0 : Option Json)
    (hjp : ∀ s j, jp s = some j → j.getField ("conversation_id") = none) :
    ∀ (reads : List String) (acc : SSEAcc) (buf : List Char),
    acc.conv = c0 → (sseStreamGo jp reads acc buf).conv = c0 := by
  intro reads
  induction reads with
  | nil => intro acc buf h; simpa [sseStreamGo] using h
  | cons v vs ih =>
    intro acc buf h
    simp only [sseStreamGo, streamStep]
    have hp := procLines_inv (fun a => a.conv = c0) _
      (fun a c ha => procChunkS_conv jp c0 hjp a c ha)
      ((splitNNGo (buf ++ v.data) []).dropLast) acc h
    cases hx : procLines (procChunkS jp) ((splitNNGo (buf ++ v.data) []).dropLast) acc with
    | inl a =>
      rw [hx] at hp
      exact ih a _ hp
    | inr a =>
      rw [hx] at hp
      simpa [sumP] using hp

/-- Claim C10: if `JSON.parse` never produces an object carrying a
`conversation_id` field — i.e. no chunk and no response body of the call
carries one — then the `conversationId` returned by `chat` is exactly
the caller's `conversationId` argument (`responseConversationId` is
initialised to it and never reassigned), in the non-stream branch, the
buffered fallback branch and the incremental streaming branch alike; in
particular it is `undefined` (`none`) when no argument was passed. -/
theorem c10_conv_id_roundtrip (jp : String → Option Json)
    (conv0 : Option Json) (body : String) (reads : List String)
    (hjp : ∀ s j, jp s = some j → j.getField ("conversation_id") = none) :
    (chatNonSSE jp conv0 body).conv = conv0 ∧
    (sseFallback jp conv0 body).conv = conv0 ∧
    (sseStream jp conv0 reads).conv = conv0 := by
  refine ⟨?_, ?_, ?_⟩
  · simp only [chatNonSSE]
    cases hb : jp body with
    | none => rfl
    | some j => simp [convUpdate, hjp _ _ hb]
  · exact outAcc_P _ _ (procLines_inv _ _
      (fun a c ha => procChunkF_conv jp conv0 hjp a c ha) _ _ rfl)
  · exact sseStreamGo_conv jp conv0 hjp reads _ [] rfl

/-- Witness for `c10_conv_id_roundtrip`: the parse function that parses
nothing (so no chunk carries a `conversation_id`), a caller-supplied id
`"k"`, and an arbitrary body. -/
theorem c10_conv_id_roundtrip_witness :
    (chatNonSSE (fun _ => none) (some (Json.str "k")) ("data: x\n\n")).conv
        = some (Json.str "k") ∧
    (sseFallback (fun _ => none) (some (Json.str "k")) ("data: x\n\n")).conv
        = some (Json.str "k") ∧
    (sseStream (fun _ => none) (some (Json.str "k")) ["data: x\n\n"]).conv
        = some (Json.str "k") := by
  exact c10_conv_id_roundtrip (fun _ => none) (some (Json.str "k"))
    ("data: x\n\n") ["data: x\n\n"] (fun s j h => by cases h)

/-- Claim C7: a processed payload line whose extracted token parses as
JSON with `type === "data-operation"` updates nothing but the tracked
conversation id — the token is neither forwarded to `onToken` nor
appended to the content; every other extracted token (including one that
starts with a brace but fails to parse, or parses without the marker) is
appended to the content and forwarded to `onToken` unchanged. This holds
in both the buffered fallback path and the incremental streaming path. -/
theorem c7_data_operation_filter (jp : String → Option Json) (acc : SSEAcc)
    (l : String) (obj : Json) (tok : String)
    (h1 : l ≠ ("[DONE]")) (h2 : l ≠ ("\"[DONE]\"")) (h3 : l ≠ (""))
    (h4 : jp l = some obj) :
    (tokenString (fallbackToken obj) = some tok →
      procLineF jp acc l = Sum.inl (
        if isDataOp jp tok then ⟨acc.finalText, convUpdate obj acc.conv, acc.tokens⟩
        else ⟨acc.finalText ++ tok, convUpdate obj acc.conv, acc.tokens ++ [tok]⟩)) ∧
    (tokenString (streamToken obj) = some tok →
      procLineS jp acc l = Sum.inl (
        if isDataOp jp tok then ⟨acc.finalText, convUpdate obj acc.conv, acc.tokens⟩
        else ⟨acc.finalText ++ tok, convUpdate obj acc.conv, acc.tokens ++ [tok]⟩)) := by
  constructor
  · intro ht
    simp only [procLineF, h4, ht]
    split
    · next hd => simp [h1, h2] at hd
    · split <;> rfl
  · intro ht
    simp only [procLineS, h4, ht]
    split
    · next hd => exact absurd hd h3
    · split
      · next hd => simp [h1, h2] at hd
      · split <;> rfl

/-- Witness for `c7_data_operation_filter`: the concrete chunk
`lineDataOp`, whose `delta.content` token is the control event
`tokDataOp`; processing it leaves the accumulator untouched in both
paths. -/
theorem c7_data_operation_filter_witness :
    procLineF jpOp ⟨"", none, []⟩ lineDataOp = Sum.inl ⟨"", none, []⟩ ∧
    procLineS jpOp ⟨"", none, []⟩ lineDataOp = Sum.inl ⟨"", none, []⟩ := by
  have h := c7_data_operation_filter jpOp ⟨"", none, []⟩ lineDataOp chunkDataOp
    tokDataOp (by decide) (by decide) (by decide) rfl
  refine ⟨(h.1 rfl).trans ?_, (h.2 rfl).trans ?_⟩ <;> rfl

/-- Claim C8 (amended): a `conversation_id` field observed in a chunk
overwrites the tracked conversation id exactly when its value is truthy
(e.g. a non-empty string); a falsy value (empty string, `null`, `false`,
`0`) or an absent field leaves the tracked id unchanged. Both the
buffered fallback path and the incremental streaming path apply this
update to every parsed chunk in document order, so the returned
`conversationId` is the last truthy value seen before stream end. -/
theorem c8_truthy_conv_overwrites (jp : String → Option Json) (obj : Json)
    (conv : Option Json) :
    (∀ v, obj.getField ("conversation_id") = some v →
      (v.truthy = true → convUpdate obj conv = some v) ∧
      (v.truthy = false → convUpdate obj conv = conv)) ∧
    (obj.getField ("conversation_id") = none → convUpdate obj conv = conv) ∧
    (∀ (acc : SSEAcc) (l : String), l ≠ ("[DONE]") → l ≠ ("\"[DONE]\"") →
      l ≠ ("") → jp l = some obj →
      (outAcc (procLineF jp acc l)).conv = convUpdate obj acc.conv ∧
      (outAcc (procLineS jp acc l)).conv = convUpdate obj acc.conv) := by
  refine ⟨?_, ?_, ?_⟩
  · intro v hv
    constructor
    · intro ht; simp [convUpdate, hv, ht]
    · intro ht; simp [convUpdate, hv, ht]
  · intro hn; simp [convUpdate, hn]
  · intro acc l h1 h2 h3 h4
    constructor
    · simp only [procLineF, h4]
      split
      · next hd => simp [h1, h2] at hd
      · split
        · rfl
        · split <;> rfl
    · simp only [procLineS, h4]
      split
      · next hd => exact absurd hd h3
      · split
        · next hd => simp [h1, h2] at hd
        · split
          · rfl
          · split <;> rfl

/-- Witness for `c8_truthy_conv_overwrites`: the concrete chunk
`{"conversation_id":"abc"}` overwrites an absent tracked id with
`"abc"`, at the `convUpdate` level and through the fallback line
processor. -/
theorem c8_truthy_conv_overwrites_witness :
    convUpdate (Json.obj [(("conversation_id"), Json.str "abc")]) none
        = some (Json.str "abc") ∧
    (outAcc (procLineF jpConv ⟨"", none, []⟩
        ("\x7b\"conversation_id\":\"abc\"\x7d"))).conv = some (Json.str "abc") := by
  have h := c8_truthy_conv_overwrites jpConv
    (Json.obj [(("conversation_id"), Json.str "abc")]) none
  refine ⟨(h.1 (Json.str "abc") rfl).1 rfl, ?_⟩
  have h2 := (h.2.2 ⟨"", none, []⟩ ("\x7b\"conversation_id\":\"abc\"\x7d")
    (by decide) (by decide) (by decide) rfl).1
  rw [h2]
  rfl

/-- Counterexample to claim C8 as stated: in `bodyConv` the last
`conversation_id` field observed before stream end is the empty string,
yet `chat` returns `"abc"` — a falsy `conversation_id` does not
overwrite the previously tracked value, so not every observed field
overwrites and the returned value is not always the last one seen. -/
theorem c8_falsy_conv_ignored_cex :
    (sseFallback jpConv none bodyConv).conv = some (Json.str "abc") ∧
    some (Json.str "abc") ≠ some (Json.str "") := by
  constructor
  · rfl
  · intro h
    injection h with h1
    injection h1 with h2
    exact absurd h2 (by decide)

/-- Counterexample to claim C2 as stated: the event body `bodyMsgHi`
carries its text in `choices[0].message.content` with no `delta`; the
buffered fallback path returns content `"hi"` and forwards one token,
while the incremental streaming path on the same body returns `""` and
forwards nothing — the two paths do not run the same event-parsing
algorithm (the `message.content` fallback exists only in the buffered
path). -/
theorem c2_paths_differ_cex :
    (sseFallback jpMsgHi none bodyMsgHi).finalText = "hi" ∧
    (sseFallback jpMsgHi none bodyMsgHi).tokens = ["hi"] ∧
    (sseStream jpMsgHi none [bodyMsgHi]).finalText = "" ∧
    (sseStream jpMsgHi none [bodyMsgHi]).tokens = ([] : List String) := by
  exact ⟨rfl, rfl, rfl, rfl⟩

theorem cleanChunk_ne_nil {c : String} (h : cleanChunk c = true) : c.data ≠ [] := by
  simp only [cleanChunk, Bool.and_eq_true, Bool.not_eq_true'] at h
  intro hc
  rw [hc] at h
  simp at h

theorem cleanChunk_noNL {c : String} (h : cleanChunk c = true) :
    ∀ ch ∈ c.data, ch ≠ '\n' ∧ ch ≠ '\r' := by
  simp only [cleanChunk, Bool.and_eq_true, Bool.not_eq_true', List.all_eq_true] at h
  intro ch hch
  have := h.1.1.2 ch hch
  simpa [Bool.and_eq_true] using this

theorem cleanChunk_head {c : String} (h : cleanChunk c = true) :
    isWS (c.data.headD 'x') = false := by
  simp only [cleanChunk, Bool.and_eq_true, Bool.not_eq_true'] at h
  exact h.1.2

theorem cleanChunk_last {c : String} (h : cleanChunk c = true) :
    isWS (c.data.reverse.headD 'x') = false := by
  simp only [cleanChunk, Bool.and_eq_true, Bool.not_eq_true'] at h
  exact h.2

theorem dropWhile_fix (l : List Char) (h : isWS (l.headD 'x') = false) :
    l.dropWhile isWS = l := by
  cases l with
  | nil => rfl
  | cons a t => simp only [List.headD_cons] at h; simp [List.dropWhile_cons, h]

theorem splitBlankGo_cons (c : Char) (rest cur : List Char)
    (h1 : c ≠ '\n') (h2 : c ≠ '\r') :
    splitBlankGo (c :: rest) cur = splitBlankGo rest (c :: cur) := by
  conv_lhs => rw [splitBlankGo.eq_def]
  split <;> simp_all

theorem splitNLGo_cons (c : Char) (rest cur : List Char)
    (h1 : c ≠ '\n') (h2 : c ≠ '\r') :
    splitNLGo (c :: rest) cur = splitNLGo rest (c :: cur) := by
  conv_lhs => rw [splitNLGo.eq_def]
  split <;> simp_all

theorem splitNNGo_cons (c : Char) (rest cur : List Char) (h1 : c ≠ '\n') :
    splitNNGo (c :: rest) cur = splitNNGo rest (c :: cur) := by
  conv_lhs => rw [splitNNGo.eq_def]
  split <;> simp_all

theorem splitLFGo_cons (c : Char) (rest cur : List Char) (h1 : c ≠ '\n') :
    splitLFGo (c :: rest) cur = splitLFGo rest (c :: cur) := by
  conv_lhs => rw [splitLFGo.eq_def]
  split <;> simp_all

theorem splitNLGo_inert (cs : List Char) (h : ∀ ch ∈ cs, ch ≠ '\n' ∧ ch ≠ '\r') :
    ∀ cur, splitNLGo cs cur = [cur.reverse ++ cs] := by
  induction cs with
  | nil => intro cur; simp [splitNLGo]
  | cons c cs ih =>
    intro cur
    have hc := h c (by simp)
    rw [splitNLGo_cons c cs cur hc.1 hc.2,
      ih (fun ch hch => h ch (by simp [hch])) (c :: cur)]
    simp

theorem splitLFGo_inert (cs : List Char) (h : ∀ ch ∈ cs, ch ≠ '\n' ∧ ch ≠ '\r') :
    ∀ cur, splitLFGo cs cur = [cur.reverse ++ cs] := by
  induction cs with
  | nil => intro cur; simp [splitLFGo]
  | cons c cs ih =>
    intro cur
    have hc := h c (by simp)
    rw [splitLFGo_cons c cs cur hc.1,
      ih (fun ch hch => h ch (by simp [hch])) (c :: cur)]
    simp

theorem splitBlankGo_boundary (cs : List Char)
    (h : ∀ ch ∈ cs, ch ≠ '\n' ∧ ch ≠ '\r') :
    ∀ rest cur, splitBlankGo (cs ++ '\n' :: '\n' :: rest) cur
      = (cur.reverse ++ cs) :: splitBlankGo rest [] := by
  induction cs with
  | nil => intro rest cur; simp [splitBlankGo]
  | cons c cs ih =>
    intro rest cur
    have hc := h c (by simp)
    rw [List.cons_append, splitBlankGo_cons c _ cur hc.1 hc.2,
      ih (fun ch hch => h ch (by simp [hch])) rest (c :: cur)]
    simp

theorem splitNNGo_boundary (cs : List Char)
    (h : ∀ ch ∈ cs, ch ≠ '\n' ∧ ch ≠ '\r') :
    ∀ rest cur, splitNNGo (cs ++ '\n' :: '\n' :: rest) cur
      = (cur.reverse ++ cs) :: splitNNGo rest [] := by
  induction cs with
  | nil => intro rest cur; simp [splitNNGo]
  | cons c cs ih =>
    intro rest cur
    have hc := h c (by simp)
    rw [List.cons_append, splitNNGo_cons c _ cur hc.1,
      ih (fun ch hch => h ch (by simp [hch])) rest (c :: cur)]
    simp

theorem dataLine_inert (c : String) (h : ∀ ch ∈ c.data, ch ≠ '\n' ∧ ch ≠ '\r') :
    ∀ ch ∈ dataLine c, ch ≠ '\n' ∧ ch ≠ '\r' := by
  intro ch hch
  simp only [dataLine, List.mem_cons] at hch
  rcases hch with rfl | rfl | rfl | rfl | rfl | rfl | hm
  · exact ⟨by decide, by decide⟩
  · exact ⟨by decide, by decide⟩
  · exact ⟨by decide, by decide⟩
  · exact ⟨by decide, by decide⟩
  · exact ⟨by decide, by decide⟩
  · exact ⟨by decide, by decide⟩
  · exact h ch hm

theorem splitBlank_canonical (chunks : List String)
    (h : ∀ c ∈ chunks, cleanChunk c = true) :
    splitBlankGo (canonicalBody chunks).data [] = chunks.map dataLine ++ [[]] := by
  induction chunks with
  | nil => rfl
  | cons c cs ih =>
    have hc := h c (by simp)
    have hdata : (canonicalBody (c :: cs)).data
        = dataLine c ++ '\n' :: '\n' :: (canonicalBody cs).data := by
      simp [canonicalBody, dataLine, List.flatten]
    rw [hdata, splitBlankGo_boundary (dataLine c)
      (dataLine_inert c (cleanChunk_noNL hc)) (canonicalBody cs).data [],
      ih (fun x hx => h x (by simp [hx]))]
    simp

theorem splitNN_canonical (chunks : List String)
    (h : ∀ c ∈ chunks, cleanChunk c = true) :
    splitNNGo (canonicalBody chunks).data [] = chunks.map dataLine ++ [[]] := by
  induction chunks with
  | nil => rfl
  | cons c cs ih =>
    have hc := h c (by simp)
    have hdata : (canonicalBody (c :: cs)).data
        = dataLine c ++ '\n' :: '\n' :: (canonicalBody cs).data := by
      simp [canonicalBody, dataLine, List.flatten]
    rw [hdata, splitNNGo_boundary (dataLine c)
      (dataLine_inert c (cleanChunk_noNL hc)) (canonicalBody cs).data [],
      ih (fun x hx => h x (by simp [hx]))]
    simp

theorem stripData_dataLine (c : String) : stripData (dataLine c) = c.data := by
  rfl

theorem jsTrim_clean (c : String) (h : cleanChunk c = true) :
    jsTrim c.data = c.data := by
  have h1 : c.data.dropWhile isWS = c.data := dropWhile_fix _ (cleanChunk_head h)
  have h2 : c.data.reverse.dropWhile isWS = c.data.reverse :=
    dropWhile_fix _ (cleanChunk_last h)
  simp [jsTrim, h1, h2]

theorem jsTrim_dataLine (c : String) (h : cleanChunk c = true) :
    jsTrim (dataLine c) = dataLine c := by
  have h1 : (dataLine c).dropWhile isWS = dataLine c := by
    apply dropWhile_fix
    simp [dataLine, isWS]
  obtain ⟨a, t, ha⟩ : ∃ a t, c.data.reverse = a :: t := by
    cases hr : c.data.reverse with
    | nil => exact absurd (List.reverse_eq_nil_iff.mp hr) (cleanChunk_ne_nil h)
    | cons a t => exact ⟨a, t, rfl⟩
  have hwa : isWS a = false := by
    have := cleanChunk_last h
    rw [ha] at this
    simpa using this
  have hrev : (dataLine c).reverse = a :: (t ++ [' ', ':', 'a', 't', 'a', 'd']) := by
    simp [dataLine, ha]
  have h2 : (dataLine c).reverse.dropWhile isWS = (dataLine c).reverse := by
    rw [hrev]
    simp [List.dropWhile_cons, hwa]
  simp [jsTrim, h1, h2]

theorem procLines_singleton {α : Type} (step : SSEAcc → α → SSEAcc ⊕ SSEAcc)
    (x : α) (acc : SSEAcc) : procLines step [x] acc = step acc x := by
  cases hx : step acc x with
  | inl a => simp [procLines, hx]
  | inr a => simp [procLines, hx]

theorem fallbackChunkLines_dataLine (c : String) (h : cleanChunk c = true) :
    fallbackChunkLines (dataLine c) = [c] := by
  unfold fallbackChunkLines
  rw [splitNLGo_inert (dataLine c) (dataLine_inert c (cleanChunk_noNL h)) []]
  have hne : c ≠ ("") := by
    intro hc
    exact cleanChunk_ne_nil h (by rw [hc])
  simp [stripData_dataLine, jsTrim_clean c h, hne]

theorem procChunkF_dataLine (jp : String → Option Json) (acc : SSEAcc)
    (c : String) (h : cleanChunk c = true) :
    procChunkF jp acc (dataLine c) = procLineF jp acc c := by
  unfold procChunkF
  rw [fallbackChunkLines_dataLine c h, procLines_singleton]

theorem procChunkS_dataLine (jp : String → Option Json) (acc : SSEAcc)
    (c : String) (h : cleanChunk c = true) :
    procChunkS jp acc (dataLine c) = procLineS jp acc c := by
  unfold procChunkS
  rw [jsTrim_dataLine c h]
  have hne : dataLine c ≠ [] := by simp [dataLine]
  rw [if_neg hne, splitLFGo_inert (dataLine c)
    (dataLine_inert c (cleanChunk_noNL h)) []]
  simp only [List.reverse_nil, List.nil_append, List.map_cons, List.map_nil,
    stripData_dataLine]
  rw [procLines_singleton]

theorem procLine_agree (jp : String → Option Json) (acc : SSEAcc) (c : String)
    (hne : c ≠ ("")) (ht : tokenAgree jp c = true) :
    procLineF jp acc c = procLineS jp acc c := by
  cases hj : jp c with
  | none => simp only [procLineF, procLineS, hj, if_neg hne]
  | some j =>
    have hts : tokenString (fallbackToken j) = tokenString (streamToken j) := by
      simpa [tokenAgree, hj] using ht
    simp only [procLineF, procLineS, hj, if_neg hne, hts]

theorem procLines_chunks_agree (jp : String → Option Json) :
    ∀ (chunks : List String),
    (∀ c ∈ chunks, cleanChunk c = true) →
    (∀ c ∈ chunks, tokenAgree jp c = true) →
    ∀ acc, procLines (procChunkF jp) (chunks.map dataLine ++ [[]]) acc
      = procLines (procChunkS jp) (chunks.map dataLine) acc := by
  intro chunks
  induction chunks with
  | nil => intro _ _ acc; rfl
  | cons c cs ih =>
    intro hcl hta acc
    have hc := hcl c (by simp)
    have htc := hta c (by simp)
    have hnec : c ≠ ("") := by
      intro hx
      exact cleanChunk_ne_nil hc (by rw [hx])
    simp only [List.map_cons, List.cons_append, procLines]
    rw [procChunkF_dataLine jp acc c hc, procChunkS_dataLine jp acc c hc,
      procLine_agree jp acc c hnec htc]
    cases procLineS jp acc c with
    | inl a =>
      exact ih (fun x hx => hcl x (by simp [hx]))
        (fun x hx => hta x (by simp [hx])) a
    | inr a => rfl

/-- Claim C2 (amended): the two event-stream paths share the `[DONE]`
handling, the `conversation_id` capture and the control-event filtering,
but they do not run literally the same algorithm — the buffered fallback
additionally falls back to `choices[0].message.content` when
`choices[0].delta.content` is absent, while the incremental path reads
only `delta.content` (see the counterexample). For every canonically
framed body (LF-delimited `data:` events with clean payloads) all of
whose chunks extract the same token under both rules, the two paths do
produce the same returned content, the same returned conversation id and
the same `onToken` sequence. -/
theorem c2_canonical_equiv (jp : String → Option Json) (conv0 : Option Json)
    (chunks : List String)
    (hcl : ∀ c ∈ chunks, cleanChunk c = true)
    (hta : ∀ c ∈ chunks, tokenAgree jp c = true) :
    sseFallback jp conv0 (canonicalBody chunks)
      = sseStream jp conv0 [canonicalBody chunks] := by
  have hsb := splitBlank_canonical chunks hcl
  have hsn := splitNN_canonical chunks hcl
  have hag := procLines_chunks_agree jp chunks hcl hta ⟨"", conv0, []⟩
  unfold sseFallback
  rw [hsb, hag]
  unfold sseStream sseStreamGo
  simp only [streamStep, List.nil_append, hsn]
  have hdl : (chunks.map dataLine ++ [([] : List Char)]).dropLast
      = chunks.map dataLine := by simp
  rw [hdl]
  cases hx : procLines (procChunkS jp) (chunks.map dataLine) ⟨"", conv0, []⟩ with
  | inl a => simp [outAcc, sseStreamGo]
  | inr a => simp [outAcc]

/-- Witness for `c2_canonical_equiv`: a single clean chunk under the
nothing-parses parse function. -/
theorem c2_canonical_equiv_witness :
    sseFallback (fun _ => none) none (canonicalBody ["hello"])
      = sseStream (fun _ => none) none [canonicalBody ["hello"]] := by
  exact c2_canonical_equiv (fun _ => none) none (["hello"])
    (by decide) (fun c hc => by simp [tokenAgree])

/-- Claim C3 (code evaluation): at stream end `ChatScreen.send` computes
`const finalText = reply || full` where `reply` is the `ChatResponse`
object returned by `chat` — an object is always truthy in JS, so the
in-flight assistant message's content is overwritten with the response
object itself rather than with the response text: after a send with
incremental tokens `hel`, `lo` and official response content `"hello"`,
the persisted assistant content is the object, which differs from the
string `"hello"`. (The replacement is indeed an overwrite, not an
append, of the token accumulation — but the persisted value is not the
response text that the claim and the `content?: string` declaration of
`ChatMessage` require.) -/
theorem c3_final_overwrite_object :
    lastAssistantContent (sendModel [] ("hi") [("hel"), ("lo")] ⟨"hello", none⟩)
      = some (MsgContent.respObj ⟨"hello", none⟩) ∧
    MsgContent.respObj ⟨"hello", none⟩ ≠ MsgContent.str ("hello") := by
  refine ⟨rfl, fun h => ?_⟩
  nomatch h

/-- Claim C4 (amended): in hands-free mode, every recognizer result
event that is final and whose text is non-empty after trimming
immediately dispatches the trimmed text as a send and clears the live
transcript, without waiting for the session to end (a final event whose
text is non-empty but whitespace-only dispatches nothing — see the
counterexample); in manual mode, no send is ever dispatched from a
result event, native or web — a send can only occur when the session
finalizes on the recognizer's `end` event. -/
theorem c4_final_segment_dispatch (st : VoiceState) (t : String)
    (rs : List (Bool × String)) :
    (jsTrimS t ≠ ("") →
      (onResultNative true st t true).sends = st.sends ++ [jsTrimS t] ∧
      (onResultNative true st t true).liveTranscript = ("")) ∧
    (∀ isFinal, (onResultNative false st t isFinal).sends = st.sends) ∧
    (jsTrimS (webCollect rs).2 ≠ ("") →
      (onResultWeb true st rs).sends = st.sends ++ [jsTrimS (webCollect rs).2] ∧
      (onResultWeb true st rs).liveTranscript = ("")) ∧
    (onResultWeb false st rs).sends = st.sends := by
  refine ⟨?_, ?_, ?_, ?_⟩
  · intro h
    have htne : t ≠ ("") := by
      intro he
      rw [he] at h
      exact h rfl
    simp [onResultNative, htne, h]
  · intro isFinal
    simp only [onResultNative]
    split
    · split
      · next hh => simp at hh
      · split <;> rfl
    · split <;> rfl
  · intro h
    have hfne : (webCollect rs).2 ≠ ("") := by
      intro he
      rw [he] at h
      exact h rfl
    simp [onResultWeb, hfne, h]
    split <;> rfl
  · simp only [onResultWeb]
    split
    · split
      · next hh => simp at hh
      · split <;> rfl
    · split <;> rfl

/-- Witness for `c4_final_segment_dispatch`: the final native result
`"hi "` dispatches the trimmed send `"hi"` and clears the live
transcript. -/
theorem c4_final_segment_dispatch_witness :
    (onResultNative true vs0 ("hi ") true).sends = [("hi")] ∧
    (onResultNative true vs0 ("hi ") true).liveTranscript = ("") := by
  have h := (c4_final_segment_dispatch vs0 ("hi ") []).1 (by decide)
  refine ⟨?_, h.2⟩
  rw [h.1]
  rfl

/-- Counterexample to claim C4 as stated: the final result event whose
text is the non-empty string `" "` (one space) dispatches no send in
either recognizer path, because the code only dispatches when the
trimmed text is non-empty. -/
theorem c4_whitespace_final_no_send_cex :
    ((" ") : String) ≠ ("") ∧
    (onResultNative true vs0 (" ") true).sends = ([] : List String) ∧
    (onResultWeb true vs0 [(true, (" "))]).sends = ([] : List String) := by
  exact ⟨by decide, rfl, rfl⟩

/-- Claim C5 (code evaluation): the cancel-intent flag can never be set.
The only writes to `willCancel` in the source are `setWillCancel(false)`
at gesture start and release; no registered handler reads the gesture
position or compares a displacement against a threshold (`startYRef` is
written at press but never read), and the mic button registers no
move/drag handler at all. Hence after any event sequence from the
initial state the flag is still `false`, and in the concrete gesture
"press, drag vertically past any threshold, release, recognizer end
with transcript `hello`" the resolved transcript is dispatched as a
send while the editable input draft stays unchanged — it is not routed
to the draft as the claim requires. -/
theorem c5_cancel_flag_never_set :
    (∀ (handsFree : Bool) (evs : List CaptureEvent),
      (captureRun handsFree evs initCapture).willCancel = false) ∧
    (captureRun false
      [CaptureEvent.pressIn 0, CaptureEvent.result ("hello") true,
        CaptureEvent.pressOut, CaptureEvent.recEnd] initCapture).voice.sends
      = [("hello")] ∧
    (captureRun false
      [CaptureEvent.pressIn 0, CaptureEvent.result ("hello") true,
        CaptureEvent.pressOut, CaptureEvent.recEnd] initCapture).voice.inputDraft
      = ("") := by
  have hstep : ∀ (h : Bool) (st : CaptureState) (e : CaptureEvent),
      st.willCancel = false → (captureStep h st e).willCancel = false := by
    intro h st e hw
    cases e with
    | pressIn y =>
      simp only [captureStep]
      split
      · exact hw
      · rfl
    | result t isFinal => simpa [captureStep] using hw
    | recError => simpa [captureStep] using hw
    | recEnd => simpa [captureStep] using hw
    | pressOut => rfl
  have hrun : ∀ (h : Bool) (evs : List CaptureEvent) (st : CaptureState),
      st.willCancel = false → (captureRun h evs st).willCancel = false := by
    intro h evs
    induction evs with
    | nil => intro st hw; simpa [captureRun] using hw
    | cons e es ih =>
      intro st hw
      simp only [captureRun, List.foldl_cons]
      exact ih (captureStep h st e) (hstep h st e hw)
  exact ⟨fun h evs => hrun h evs initCapture rfl, rfl, rfl⟩

/-- Claim C6 (amended): a recognizer error event is only logged — both
error handlers (native listener and web `onerror`) leave the session
state completely unchanged and neither resolve nor dispatch the
accumulated transcript. Resolution and dispatch happen only in the
separate `end` handler, if and when the recognizer fires `end`
afterwards. -/
theorem c6_error_only_logged (st : VoiceState) :
    onErrorNative st = st ∧ onErrorWeb st = st :=
  ⟨rfl, rfl⟩

/-- Counterexample to claim C6 as stated: in a manual-mode session
holding the committed transcript `"hi"`, the error event dispatches
nothing and leaves the transcript buffer undelivered, whereas a natural
`end` event in the same state resolves and dispatches the send — the
session does not treat an error event like an end event. -/
theorem c6_error_not_end_cex :
    (onErrorNative vsPending).sends = ([] : List String) ∧
    (onErrorNative vsPending).finalBuf = ("hi") ∧
    (onEndNative false false vsPending).sends = [("hi")] := by
  exact ⟨rfl, rfl, rfl⟩

/-- Claim C9: while a capture is already starting (`startingRef`) or
listening, a further `startRecording` call returns immediately without
touching the state or issuing a recognizer start; and for a pair of
start calls in quick succession — the second arriving while the first
sits between its synchronous entry and its asynchronous body — at most
one underlying recognizer start is issued, whatever the outcomes of the
two bodies. -/
theorem c9_start_guard (st : RecGuard) (i1 i2 : Bool) :
    ((st.starting || st.listening) = true → startCall i1 st = (st, 0)) ∧
    (startQuickPair i1 i2 st).2 ≤ 1 := by
  constructor
  · intro h
    simp [startCall, startEntry, h]
  · rcases st with ⟨s, l, n⟩
    cases s <;> cases l <;> cases i1 <;> cases i2 <;>
      simp [startQuickPair, startCall, startEntry, startBody]

/-- Witness for `c9_start_guard`: a call while `startingRef` is set is a
no-op, and an idle-state quick pair issues at most one start. -/
theorem c9_start_guard_witness :
    startCall true ⟨true, false, 0⟩ = (⟨true, false, 0⟩, 0) ∧
    (startQuickPair true true ⟨false, false, 0⟩).2 ≤ 1 := by
  exact ⟨(c9_start_guard ⟨true, false, 0⟩ true true).1 rfl,
    (c9_start_guard ⟨false, false, 0⟩ true true).2⟩
